import Mathlib

/-!
Verification of the streak-calculation engine of the habit tracker
(`src/modules/analytics.py` and `src/modules/habit.py`).

Modelling choices:
* Python `datetime` values are modelled as integer numbers of seconds
  (`Int`); `timedelta` values likewise (days = 86400 seconds).
* `datetime.utcnow()` is ambient state in Python; here the clock value is
  threaded as an explicit `now : Int` parameter of every function that
  reads it.
* A Python `ValueError` becomes `Except.error`; functions that can raise
  return `Except String _`.
* Python `sorted` on integers is modelled with `List.insertionSort (· ≤ ·)`:
  for a list of integers any ascending sort produces the same list.
-/

namespace HabitTracker

/-- Domain model `Habit` from `habit.py` (the dataclass fields; the
`__post_init__` validation is `post_init` below). -/
structure Habit where
  id : Option Int
  name : String
  periodicity : String
  created_at : Int
  completions : List Int
deriving Repr, DecidableEq

/-- `VALID_PERIODICITIES = {"daily", "weekly", "monthly"}` from `habit.py`. -/
def VALID_PERIODICITIES : List String := ["daily", "weekly", "monthly"]

/-- `Habit.__post_init__` from `habit.py`: raises `ValueError` when the
periodicity is not in `VALID_PERIODICITIES`. -/
def Habit.post_init (h : Habit) : Except String Habit :=
  if h.periodicity ∈ VALID_PERIODICITIES then .ok h
  else .error ("Invalid periodicity " ++ h.periodicity)

/-- Constructing a `Habit` in Python runs the dataclass constructor followed
by `__post_init__`. -/
def mkHabit (id : Option Int) (name : String) (periodicity : String)
    (created_at : Int) (completions : List Int) : Except String Habit :=
  Habit.post_init
    { id := id, name := name, periodicity := periodicity,
      created_at := created_at, completions := completions }

/-- `_period_delta` from `analytics.py`: the period length as a timedelta
(in seconds), raising `ValueError` for an unsupported periodicity. -/
def period_delta (periodicity : String) : Except String Int :=
  if periodicity = "daily" then .ok 86400
  else if periodicity = "weekly" then .ok (7 * 86400)
  else if periodicity = "monthly" then .ok (30 * 86400)
  else .error ("Unsupported periodicity: " ++ periodicity)

/-- The backward walk of `calculate_streaks`: the loop
`for i in range(len(completions) - 2, -1, -1)` walks the ascending sorted
list from its top; on the reversed (descending) list it checks each
adjacent gap in turn, counting 1 per gap `≤ window` and stopping at the
first larger gap (`break`). -/
def streakWalk (window : Int) : List Int → Nat
  | x :: y :: rest =>
      if x - y ≤ window then streakWalk window (y :: rest) + 1 else 0
  | _ => 0

/-- `calculate_streaks` from `analytics.py`.  The Python function reads
`now = datetime.utcnow()` from the ambient clock inside its body; that
clock value is the explicit parameter `now` here. -/
def calculate_streaks (now : Int) (habit : Habit) : Except String Nat :=
  match habit.completions.insertionSort (· ≤ ·) with
  | [] => .ok 0
  | a :: t =>
      match period_delta habit.periodicity with
      | .error e => .error e
      | .ok period =>
          if now - (a :: t).getLastD 0 > period + 12 * 3600 then .ok 0
          else .ok (1 + streakWalk (period + 12 * 3600) (a :: t).reverse)

/-- `longest_streak_for_habit` from `analytics.py`: delegates to
`calculate_streaks`. -/
def longest_streak_for_habit (now : Int) (habit : Habit) : Except String Nat :=
  calculate_streaks now habit

/-- The `streaks = list(map(lambda h: (h.name, calculate_streaks(h)), habits))`
step of `longest_streak_overall`: builds the whole list, propagating the
first raised error. -/
def mapStreaks (now : Int) : List Habit → Except String (List (String × Nat))
  | [] => .ok []
  | h :: rest =>
      match calculate_streaks now h with
      | .error e => .error e
      | .ok s =>
          match mapStreaks now rest with
          | .error e => .error e
          | .ok r => .ok ((h.name, s) :: r)

/-- Python `max(xs, key=lambda x: x[1])`: scans left to right, keeping the
current best and replacing it only on a strictly larger key, so the first
element attaining the maximum wins. -/
def pyMaxBySnd (best : String × Nat) : List (String × Nat) → String × Nat
  | [] => best
  | x :: xs => pyMaxBySnd (if best.2 < x.2 then x else best) xs

/-- `longest_streak_overall` from `analytics.py`. -/
def longest_streak_overall (now : Int) (habits : List Habit) :
    Except String (Option (String × Nat)) :=
  if habits.isEmpty then .ok none
  else
    match mapStreaks now habits with
    | .error e => .error e
    | .ok streaks =>
        match streaks with
        | [] => .ok none
        | s :: rest => .ok (some (pyMaxBySnd s rest))

/-- Python `str.lower()` on one character, modelled for the ASCII range
(habit names in this system are ASCII). -/
def lowerChar (c : Char) : Char :=
  if 'A' ≤ c ∧ c ≤ 'Z' then Char.ofNat (c.toNat + 32) else c

/-- Python `str.lower()`: lowercase every character. -/
def lowerStr (s : String) : String :=
  ⟨s.data.map lowerChar⟩

/-- `longest_streak_for_habit_name` from `analytics.py`: scan the habits in
order, return the streak of the first whose lowercased name equals the
lowercased query, `None` when none matches. -/
def longest_streak_for_habit_name (now : Int) (habits : List Habit)
    (name : String) : Except String (Option Nat) :=
  match habits with
  | [] => .ok none
  | h :: rest =>
      if lowerStr h.name = lowerStr name then
        match calculate_streaks now h with
        | .error e => .error e
        | .ok s => .ok (some s)
      else longest_streak_for_habit_name now rest name

/-!  Reference definitions taken from the spec's words (used to state the
refinement claims; the authoritative definitions above come from the
source). -/

/-- Spec words: `period_length(periodicity)` with daily = 24h, weekly = 7d,
monthly = 30d (in seconds); only used under the hypothesis that the
periodicity is one of the three recognized values. -/
def period_length_spec (periodicity : String) : Int :=
  if periodicity = "daily" then 86400
  else if periodicity = "weekly" then 7 * 86400
  else 30 * 86400

/-- The adjacent gaps of a descending list: for `[x, y, z, ...]` the list
`[x - y, y - z, ...]`.  Walking backward through the consecutive pairs of an
ascending list visits exactly these gaps in this order. -/
def adjacentGapsD : List Int → List Int
  | x :: y :: rest => (x - y) :: adjacentGapsD (y :: rest)
  | _ => []

/-- Reference streak definition from the spec: sort the completions
ascending; empty list gives 0; `window = period_length + 12h`; if
`now - last_completion > window` the streak is broken (0); otherwise the
streak is 1 plus the number of adjacent gaps, walking backward from the
most recent pair, that are `≤ window` before the first larger gap. -/
def spec_streak (now : Int) (periodicity : String) (completions : List Int) :
    Nat :=
  match completions.insertionSort (· ≤ ·) with
  | [] => 0
  | a :: t =>
      if now - (a :: t).getLastD 0 > period_length_spec periodicity + 12 * 3600 then 0
      else
        1 + ((adjacentGapsD (a :: t).reverse).takeWhile
            (fun g => decide (g ≤ period_length_spec periodicity + 12 * 3600))).length

/-- The historical maximum streak over the whole completion history
(modelled from the claim's words, for contrast with the current active
streak): the longest run of consecutive completions, anywhere in the
descending completion list, whose adjacent gaps are all `≤ window`. -/
def historical_max_streak (window : Int) : List Int → Nat
  | [] => 0
  | x :: xs => max (1 + streakWalk window (x :: xs)) (historical_max_streak window xs)

/-! Helper lemmas. -/

/-- For a valid periodicity, `_period_delta` succeeds and returns the
period length the spec names. -/
lemma period_delta_valid {p : String} (hv : p ∈ VALID_PERIODICITIES) :
    period_delta p = .ok (period_length_spec p) := by
  simp only [VALID_PERIODICITIES, List.mem_cons, List.not_mem_nil, or_false] at hv
  rcases hv with h | h | h <;> subst h <;> rfl

/-- `_period_delta` fails exactly on the unrecognized periodicities. -/
lemma period_delta_error_iff (p : String) :
    (∃ e, period_delta p = .error e) ↔ p ∉ VALID_PERIODICITIES := by
  unfold period_delta VALID_PERIODICITIES
  split_ifs with h1 h2 h3 <;> simp_all

/-- The sorted copy of the completion list has the same length. -/
lemma length_sort (l : List Int) :
    (l.insertionSort (· ≤ ·)).length = l.length :=
  List.length_insertionSort (fun x1 x2 => x1 ≤ x2) l

/-- The sorted copy of the completion list is empty exactly when the
completion list is. -/
lemma insertionSort_eq_nil_iff (l : List Int) :
    l.insertionSort (· ≤ ·) = [] ↔ l = [] := by
  constructor
  · intro h
    have hl := length_sort l
    rw [h] at hl
    exact List.length_eq_zero.mp hl.symm
  · intro h; subst h; rfl

/-- Unfolding `calculate_streaks` when the completion list is empty. -/
lemma calculate_streaks_nil (now : Int) (h : Habit)
    (hsl : h.completions.insertionSort (· ≤ ·) = []) :
    calculate_streaks now h = .ok 0 := by
  unfold calculate_streaks
  rw [hsl]

/-- Unfolding `calculate_streaks` when `_period_delta` raises: the error
propagates. -/
lemma calculate_streaks_cons_error (now : Int) (h : Habit) (a : Int)
    (t : List Int) (e : String)
    (hsl : h.completions.insertionSort (· ≤ ·) = a :: t)
    (hpd : period_delta h.periodicity = .error e) :
    calculate_streaks now h = .error e := by
  unfold calculate_streaks
  rw [hsl, hpd]

/-- Unfolding `calculate_streaks` in the main branch. -/
lemma calculate_streaks_cons_ok (now : Int) (h : Habit) (a : Int)
    (t : List Int) (period : Int)
    (hsl : h.completions.insertionSort (· ≤ ·) = a :: t)
    (hpd : period_delta h.periodicity = .ok period) :
    calculate_streaks now h =
      if now - (a :: t).getLastD 0 > period + 12 * 3600 then .ok 0
      else .ok (1 + streakWalk (period + 12 * 3600) (a :: t).reverse) := by
  unfold calculate_streaks
  rw [hsl, hpd]

/-- Sorting is invariant under permutation of an integer list: any two
ascending sorts of the same multiset are the same list. -/
lemma insertionSort_eq_of_perm {l₁ l₂ : List Int} (hp : l₁.Perm l₂) :
    l₁.insertionSort (· ≤ ·) = l₂.insertionSort (· ≤ ·) :=
  List.eq_of_perm_of_sorted
    ((List.perm_insertionSort _ l₁).trans (hp.trans (List.perm_insertionSort _ l₂).symm))
    (List.sorted_insertionSort _ l₁) (List.sorted_insertionSort _ l₂)

/-- `calculate_streaks` reads a habit only through its completion list (via
its sorted copy) and its periodicity. -/
lemma calculate_streaks_congr (now : Int) {h₁ h₂ : Habit}
    (hp : h₁.periodicity = h₂.periodicity)
    (hs : h₁.completions.insertionSort (· ≤ ·) = h₂.completions.insertionSort (· ≤ ·)) :
    calculate_streaks now h₁ = calculate_streaks now h₂ := by
  unfold calculate_streaks
  rw [hp, hs]

/-- The backward walk counts at most one step per remaining element. -/
lemma streakWalk_le (w : Int) : ∀ (x : Int) (l : List Int),
    streakWalk w (x :: l) ≤ l.length := by
  intro x l
  induction l generalizing x with
  | nil => simp [streakWalk]
  | cons y rest ih =>
      rw [streakWalk]
      split
      · exact Nat.succ_le_succ (ih y)
      · exact Nat.zero_le _

/-- For a valid periodicity, `calculate_streaks` cannot raise. -/
lemma calculate_streaks_ok (now : Int) (h : Habit)
    (hv : h.periodicity ∈ VALID_PERIODICITIES) :
    ∃ k, calculate_streaks now h = .ok k := by
  unfold calculate_streaks
  rcases h.completions.insertionSort (· ≤ ·) with _ | ⟨a, t⟩
  · exact ⟨0, rfl⟩
  · rw [period_delta_valid hv]
    simp only []
    split
    · exact ⟨0, rfl⟩
    · exact ⟨_, rfl⟩

/-- The backward walk counts exactly the adjacent gaps `≤ window` before
the first larger gap. -/
lemma streakWalk_eq_takeWhile (w : Int) : ∀ l : List Int,
    streakWalk w l
      = ((adjacentGapsD l).takeWhile (fun g => decide (g ≤ w))).length := by
  intro l
  induction l with
  | nil => rfl
  | cons x xs ih =>
      cases xs with
      | nil => rfl
      | cons y rest =>
          rw [streakWalk, adjacentGapsD, List.takeWhile_cons]
          by_cases hxy : x - y ≤ w
          · rw [if_pos hxy, if_pos (by simpa using hxy)]
            simp [ih]
          · rw [if_neg hxy, if_neg (by simpa using hxy)]
            rfl

/-! Theorems for the claims. -/

/-- C1: for each habit with a valid periodicity, `calculate_streaks`
returns exactly the reference streak of the spec (sort ascending, empty
gives 0, broken-recency gives 0, otherwise one plus the count of adjacent
gaps within `period + 12h` walking backward until the first larger gap,
the period boundary itself included by `≤`). -/
theorem calculate_streaks_matches_spec (now : Int) (habit : Habit)
    (hv : habit.periodicity ∈ VALID_PERIODICITIES) :
    calculate_streaks now habit
      = .ok (spec_streak now habit.periodicity habit.completions) := by
  rcases hsl : habit.completions.insertionSort (· ≤ ·) with _ | ⟨a, t⟩
  · rw [calculate_streaks_nil now habit hsl]
    unfold spec_streak
    rw [hsl]
  · rw [calculate_streaks_cons_ok now habit a t (period_length_spec habit.periodicity)
      hsl (period_delta_valid hv)]
    unfold spec_streak
    rw [hsl]
    simp only []
    split_ifs with hcond
    · rfl
    · rw [streakWalk_eq_takeWhile]

/-- C1 witness. -/
theorem calculate_streaks_matches_spec_witness :
    ("daily" ∈ VALID_PERIODICITIES) ∧
    calculate_streaks 86400 ⟨none, "Water", "daily", 0, [0, 86400]⟩
      = .ok (spec_streak 86400 "daily" [0, 86400]) :=
  ⟨by decide, calculate_streaks_matches_spec 86400 _ (by decide)⟩

/-- C8: the streak is invariant under permutation of the completion list,
because the list is sorted ascending before evaluation. -/
theorem streak_permutation_invariant (now : Int) (h₁ h₂ : Habit)
    (hp : h₁.periodicity = h₂.periodicity)
    (hperm : h₁.completions.Perm h₂.completions) :
    calculate_streaks now h₁ = calculate_streaks now h₂ :=
  calculate_streaks_congr now hp (insertionSort_eq_of_perm hperm)

/-- C8 witness: the same completions inserted in the opposite order. -/
theorem streak_permutation_invariant_witness :
    calculate_streaks 172800 ⟨none, "Run", "daily", 0, [0, 86400]⟩
      = calculate_streaks 172800 ⟨none, "Run", "daily", 0, [86400, 0]⟩ :=
  streak_permutation_invariant 172800 _ _ rfl (by decide)

/-- C4: every successfully computed streak is a natural number (hence
non-negative) bounded by the number of recorded completions. -/
theorem streak_le_completion_count (now : Int) (h : Habit) (k : Nat)
    (hk : calculate_streaks now h = .ok k) : k ≤ h.completions.length := by
  rcases hsl : h.completions.insertionSort (· ≤ ·) with _ | ⟨a, t⟩
  · rw [calculate_streaks_nil now h hsl] at hk
    injection hk with hk
    omega
  · have hlen : t.length + 1 = h.completions.length := by
      have hL := length_sort h.completions
      rw [hsl] at hL
      simpa using hL
    rcases hpd : period_delta h.periodicity with e | period
    · rw [calculate_streaks_cons_error now h a t e hsl hpd] at hk
      cases hk
    · rw [calculate_streaks_cons_ok now h a t period hsl hpd] at hk
      split at hk
      · injection hk with hk
        omega
      · injection hk with hk
        rcases hrev : (a :: t).reverse with _ | ⟨b, u⟩
        · exact absurd (congrArg List.length hrev) (by simp)
        · rw [hrev] at hk
          have hb := streakWalk_le (period + 12 * 3600) b u
          have hu : u.length + 1 = h.completions.length := by
            have h2 := congrArg List.length hrev
            simp at h2
            omega
          omega

/-- C4 witness. -/
theorem streak_le_completion_count_witness :
    (2 : Nat) ≤ (List.length [(0 : Int), 86400]) :=
  streak_le_completion_count 86400 ⟨none, "Water", "daily", 0, [0, 86400]⟩ 2 rfl

/-- C2 (amended): with the ambient clock value modelled as the explicit
parameter `now`, `calculate_streaks` is a deterministic pure function of
the completions, the periodicity and `now`: habits agreeing on those
fields produce equal results. -/
theorem calculate_streaks_deterministic (now : Int) (h₁ h₂ : Habit)
    (hc : h₁.completions = h₂.completions)
    (hp : h₁.periodicity = h₂.periodicity) :
    calculate_streaks now h₁ = calculate_streaks now h₂ :=
  calculate_streaks_congr now hp (by rw [hc])

/-- C2 witness: habits differing only in id, name and creation time give
equal streaks. -/
theorem calculate_streaks_deterministic_witness :
    calculate_streaks 0 ⟨some 1, "a", "daily", 5, [0]⟩
      = calculate_streaks 0 ⟨none, "b", "daily", 9, [0]⟩ :=
  calculate_streaks_deterministic 0 _ _ rfl rfl

/-- C2 counterexample: the Python function's only declared input is the
habit; `now` is read from the ambient clock (`datetime.utcnow()`) inside
the body, not injected.  The same habit therefore yields different results
at different clock readings, refuting the claim that `now` is an
injectable input. -/
theorem calculate_streaks_ambient_clock_counterexample :
    calculate_streaks 0 ⟨none, "water", "daily", 0, [0]⟩ = .ok 1 ∧
    calculate_streaks 1000000 ⟨none, "water", "daily", 0, [0]⟩ = .ok 0 :=
  ⟨rfl, rfl⟩

/-- C3 (amended): `_period_delta` raises exactly for periodicities outside
{daily, weekly, monthly}, and the error propagates out of
`calculate_streaks` uncaught; but `calculate_streaks` itself raises iff
the periodicity is invalid AND the completion list is non-empty, because
the empty-list check returns 0 before the periodicity is examined. -/
theorem invalid_periodicity_error (p : String) (now : Int) (h : Habit) :
    ((∃ e, period_delta p = .error e) ↔ p ∉ VALID_PERIODICITIES) ∧
    ((∃ e, calculate_streaks now h = .error e) ↔
      (h.periodicity ∉ VALID_PERIODICITIES ∧ h.completions ≠ [])) := by
  refine ⟨period_delta_error_iff p, ?_⟩
  constructor
  · rintro ⟨e, he⟩
    rcases hsl : h.completions.insertionSort (· ≤ ·) with _ | ⟨a, t⟩
    · rw [calculate_streaks_nil now h hsl] at he
      cases he
    · rcases hpd : period_delta h.periodicity with e' | period
      · refine ⟨(period_delta_error_iff h.periodicity).mp ⟨e', hpd⟩, ?_⟩
        intro hnil
        rw [hnil] at hsl
        cases hsl
      · rw [calculate_streaks_cons_ok now h a t period hsl hpd] at he
        split at he <;> cases he
  · rintro ⟨hinv, hne⟩
    rcases hsl : h.completions.insertionSort (· ≤ ·) with _ | ⟨a, t⟩
    · exact absurd ((insertionSort_eq_nil_iff h.completions).mp hsl) hne
    · rcases hpd : period_delta h.periodicity with e' | period
      · exact ⟨e', calculate_streaks_cons_error now h a t e' hsl hpd⟩
      · exfalso
        rcases (period_delta_error_iff h.periodicity).mpr hinv with ⟨e'', he''⟩
        rw [hpd] at he''
        cases he''

/-- C3 witness: a recognized periodicity raises nothing, and an invalid
periodicity with completions raises. -/
theorem invalid_periodicity_error_witness :
    (¬ ∃ e, period_delta "weekly" = .error e) ∧
    (∃ e, calculate_streaks 0 ⟨none, "x", "yearly", 0, [0]⟩ = .error e) := by
  constructor
  · intro he
    exact absurd ((invalid_periodicity_error "weekly" 0
      ⟨none, "x", "yearly", 0, [0]⟩).1.mp he) (by decide)
  · exact (invalid_periodicity_error "yearly" 0
      ⟨none, "x", "yearly", 0, [0]⟩).2.mpr ⟨by decide, by decide⟩

/-- C3 counterexample: with an empty completion list the streak
calculation returns 0 and raises nothing even for the unrecognized
periodicity "yearly", refuting the claimed "if and only if". -/
theorem invalid_periodicity_error_counterexample :
    ("yearly" ∉ VALID_PERIODICITIES) ∧
    calculate_streaks 0 ⟨none, "Reading", "yearly", 0, []⟩ = .ok 0 :=
  ⟨by decide, rfl⟩

/-- C5: a weekly habit completed at `now`, `now - 6d` and `now - 20d` has
streak exactly 2: the 6-day gap is within the `7d + 12h` window, and the
14-day gap between the day-6 and day-20 completions breaks the chain. -/
theorem weekly_scenario_streak_two (now : Int) :
    calculate_streaks now
      ⟨none, "Workout", "weekly", 0, [now, now - 6 * 86400, now - 20 * 86400]⟩
      = .ok 2 := by
  have hsort : ([now, now - 6 * 86400, now - 20 * 86400] : List Int).insertionSort (· ≤ ·)
      = [now - 20 * 86400, now - 6 * 86400, now] := by
    have hp : List.Perm ([now, now - 6 * 86400, now - 20 * 86400] : List Int)
        [now - 20 * 86400, now - 6 * 86400, now] := by
      have hr := List.reverse_perm ([now, now - 6 * 86400, now - 20 * 86400] : List Int)
      simpa using hr.symm
    have hsorted : List.Sorted (· ≤ ·)
        ([now - 20 * 86400, now - 6 * 86400, now] : List Int) := by
      simp [List.sorted_cons]
      all_goals omega
    exact (insertionSort_eq_of_perm hp).trans hsorted.insertionSort_eq
  rw [calculate_streaks_cons_ok now _ (now - 20 * 86400) [now - 6 * 86400, now]
    (7 * 86400) hsort (by rfl)]
  rw [if_neg (by simp [List.getLastD])]
  simp only [List.reverse_cons, List.reverse_nil, List.nil_append, List.cons_append,
    List.getLastD]
  rw [streakWalk, if_pos (by omega), streakWalk, if_neg (by omega)]

/-- C10: `longest_streak_for_habit` is definitionally `calculate_streaks`:
the reported "longest streak" is the current active streak, not the
historical maximum — a daily habit whose three-day chain lies far in the
past has historical maximum 3 but reported streak 0. -/
theorem longest_streak_is_current_streak :
    (∀ (now : Int) (habit : Habit),
      longest_streak_for_habit now habit = calculate_streaks now habit) ∧
    (calculate_streaks 10000000 ⟨none, "Reading", "daily", 0, [0, 86400, 172800]⟩ = .ok 0 ∧
      historical_max_streak (86400 + 12 * 3600) [172800, 86400, 0] = 3) :=
  ⟨fun _ _ => rfl, rfl, rfl⟩

/-! Lemmas about Python's `max(..., key=lambda x: x[1])` scan. -/

/-- The scan result is one of the scanned elements. -/
lemma pyMaxBySnd_mem : ∀ (l : List (String × Nat)) (b : String × Nat),
    pyMaxBySnd b l ∈ b :: l := by
  intro l
  induction l with
  | nil => intro b; simp [pyMaxBySnd]
  | cons x xs ih =>
      intro b
      rw [pyMaxBySnd]
      rcases List.mem_cons.mp (ih (if b.2 < x.2 then x else b)) with h1 | h1
      · rw [h1]
        by_cases hbx : b.2 < x.2
        · simp [hbx]
        · simp [hbx]
      · exact List.mem_cons.mpr (Or.inr (List.mem_cons.mpr (Or.inr h1)))

/-- The scan result has the largest key. -/
lemma pyMaxBySnd_ge : ∀ (l : List (String × Nat)) (b : String × Nat),
    ∀ q ∈ b :: l, q.2 ≤ (pyMaxBySnd b l).2 := by
  intro l
  induction l with
  | nil =>
      intro b q hq
      rcases List.mem_cons.mp hq with h | h
      · rw [h]; exact Nat.le_refl _
      · cases h
  | cons x xs ih =>
      intro b q hq
      rw [pyMaxBySnd]
      have hbest : b.2 ≤ (if b.2 < x.2 then x else b).2 ∧
          x.2 ≤ (if b.2 < x.2 then x else b).2 := by
        by_cases hbx : b.2 < x.2 <;> simp [hbx] <;> omega
      have htop := ih (if b.2 < x.2 then x else b) _
        (List.mem_cons_self (if b.2 < x.2 then x else b) xs)
      rcases List.mem_cons.mp hq with h | h
      · rw [h]; omega
      · rcases List.mem_cons.mp h with h2 | h2
        · rw [h2]; omega
        · exact ih (if b.2 < x.2 then x else b) q (List.mem_cons.mpr (Or.inr h2))

/-- On ties the first-encountered maximum wins: the scan result is the
first element whose key reaches the maximum. -/
lemma pyMaxBySnd_first : ∀ (l : List (String × Nat)) (b : String × Nat),
    (b :: l).find? (fun q => decide ((pyMaxBySnd b l).2 ≤ q.2))
      = some (pyMaxBySnd b l) := by
  intro l
  induction l with
  | nil =>
      intro b
      rw [pyMaxBySnd]
      simp [List.find?]
  | cons x xs ih =>
      intro b
      rw [pyMaxBySnd]
      by_cases hbx : b.2 < x.2
      · rw [if_pos hbx]
        have hx : x.2 ≤ (pyMaxBySnd x xs).2 :=
          pyMaxBySnd_ge xs x x (List.mem_cons_self x xs)
        have hb : ¬ ((pyMaxBySnd x xs).2 ≤ b.2) := by omega
        rw [List.find?_cons_of_neg _ (by simpa using hb)]
        exact ih x
      · rw [if_neg hbx]
        by_cases hrb : (pyMaxBySnd b xs).2 ≤ b.2
        · have hib := ih b
          rw [List.find?_cons_of_pos _ (by simpa using hrb)] at hib
          have hrb' : pyMaxBySnd b xs = b := by
            injection hib with hib
            exact hib.symm
          rw [hrb']
          rw [List.find?_cons_of_pos _ (by simp)]
        · have hxb : ¬ ((pyMaxBySnd b xs).2 ≤ x.2) := by omega
          have hib := ih b
          rw [List.find?_cons_of_neg _ (by simpa using hrb)] at hib
          rw [List.find?_cons_of_neg _ (by simpa using hrb),
            List.find?_cons_of_neg _ (by simpa using hxb)]
          exact hib

/-- With valid periodicities the `streaks` list is fully computed, one
entry per habit. -/
lemma mapStreaks_ok (now : Int) : ∀ habits : List Habit,
    (∀ h ∈ habits, h.periodicity ∈ VALID_PERIODICITIES) →
    ∃ ss, mapStreaks now habits = .ok ss ∧ ss.length = habits.length := by
  intro habits
  induction habits with
  | nil => intro _; exact ⟨[], rfl, rfl⟩
  | cons h rest ih =>
      intro hv
      rcases calculate_streaks_ok now h (hv h (List.mem_cons_self h rest)) with ⟨k, hk⟩
      rcases ih (fun h' hh' => hv h' (List.mem_cons.mpr (Or.inr hh'))) with ⟨ss, hss, hlen⟩
      refine ⟨(h.name, k) :: ss, ?_, by simp [hlen]⟩
      rw [mapStreaks, hk, hss]

/-- C6: `longest_streak_overall` returns no result on an empty habit list;
on a non-empty list (with valid periodicities, so no error) it returns a
(name, streak) pair of maximal streak, and on ties the first-encountered
habit in input order wins (it is the first entry of the streak list whose
streak reaches the maximum). -/
theorem rank_by_streak_max (now : Int) (habits : List Habit)
    (hne : habits ≠ [])
    (hv : ∀ h ∈ habits, h.periodicity ∈ VALID_PERIODICITIES) :
    longest_streak_overall now [] = .ok none ∧
    ∃ ss r, mapStreaks now habits = .ok ss ∧ ss.length = habits.length ∧
      longest_streak_overall now habits = .ok (some r) ∧
      r ∈ ss ∧ (∀ q ∈ ss, q.2 ≤ r.2) ∧
      ss.find? (fun q => decide (r.2 ≤ q.2)) = some r := by
  refine ⟨rfl, ?_⟩
  rcases mapStreaks_ok now habits hv with ⟨ss, hss, hlen⟩
  rcases habits with _ | ⟨h0, hrest⟩
  · exact absurd rfl hne
  rcases ss with _ | ⟨s0, srest⟩
  · simp at hlen
  refine ⟨s0 :: srest, pyMaxBySnd s0 srest, hss, hlen, ?_, pyMaxBySnd_mem srest s0,
    pyMaxBySnd_ge srest s0, pyMaxBySnd_first srest s0⟩
  unfold longest_streak_overall
  rw [hss]
  simp

/-- C6 witness. -/
theorem rank_by_streak_max_witness :
    longest_streak_overall 0 [] = .ok none ∧
    ∃ ss r,
      mapStreaks 0 [⟨none, "Water", "daily", 0, [0]⟩, ⟨none, "Gym", "weekly", 0, []⟩]
        = .ok ss ∧
      ss.length = 2 ∧
      longest_streak_overall 0
        [⟨none, "Water", "daily", 0, [0]⟩, ⟨none, "Gym", "weekly", 0, []⟩]
        = .ok (some r) ∧
      r ∈ ss ∧ (∀ q ∈ ss, q.2 ≤ r.2) ∧
      ss.find? (fun q => decide (r.2 ≤ q.2)) = some r :=
  rank_by_streak_max 0 _ (by simp) (by decide)

/-- C7: `longest_streak_for_habit_name` performs a case-insensitive exact
match, returning the streak of the first habit in input order whose
lowercased name equals the lowercased query, and `None` when no habit
matches. -/
theorem find_streak_by_name_correct (now : Int) (habits : List Habit)
    (qname : String) :
    (habits.find? (fun h => lowerStr h.name == lowerStr qname) = none →
      longest_streak_for_habit_name now habits qname = .ok none) ∧
    ∀ hb, habits.find? (fun h => lowerStr h.name == lowerStr qname) = some hb →
      longest_streak_for_habit_name now habits qname
        = Except.map some (calculate_streaks now hb) := by
  induction habits with
  | nil =>
      refine ⟨fun _ => rfl, fun hb hfind => ?_⟩
      simp at hfind
  | cons h0 rest ih =>
      constructor
      · intro hnone
        rw [longest_streak_for_habit_name]
        by_cases heq : lowerStr h0.name = lowerStr qname
        · rw [List.find?_cons_of_pos _ (by simpa using heq)] at hnone
          cases hnone
        · rw [if_neg heq]
          rw [List.find?_cons_of_neg _ (by simpa using heq)] at hnone
          exact ih.1 hnone
      · intro hb hfind
        rw [longest_streak_for_habit_name]
        by_cases heq : lowerStr h0.name = lowerStr qname
        · rw [if_pos heq]
          rw [List.find?_cons_of_pos _ (by simpa using heq)] at hfind
          injection hfind with hfind
          subst hfind
          rcases hc : calculate_streaks now h0 with e | s
          · rfl
          · rfl
        · rw [if_neg heq]
          rw [List.find?_cons_of_neg _ (by simpa using heq)] at hfind
          exact ih.2 hb hfind

/-- C7 witness: the query differs from the stored name only in case. -/
theorem find_streak_by_name_witness :
    longest_streak_for_habit_name 0 [⟨none, "Water", "daily", 0, [0]⟩] "wAtEr"
      = Except.map some (calculate_streaks 0 ⟨none, "Water", "daily", 0, [0]⟩) :=
  (find_streak_by_name_correct 0 _ "wAtEr").2 _ (by decide)

/-- C9: the `Habit` constructor validates the periodicity: an invalid one
raises at construction time, and every successfully constructed habit has
a valid periodicity, so `calculate_streaks` on a constructed habit never
reaches the unsupported-periodicity branch of `_period_delta`. -/
theorem constructed_habit_valid (i : Option Int) (nm p : String) (c : Int)
    (l : List Int) (now : Int) :
    (p ∉ VALID_PERIODICITIES → ∃ e, mkHabit i nm p c l = .error e) ∧
    ∀ h, mkHabit i nm p c l = .ok h →
      h.periodicity ∈ VALID_PERIODICITIES ∧ ∃ k, calculate_streaks now h = .ok k := by
  constructor
  · intro hbad
    unfold mkHabit Habit.post_init
    simp only []
    rw [if_neg hbad]
    exact ⟨_, rfl⟩
  · intro h hok
    unfold mkHabit Habit.post_init at hok
    simp only [] at hok
    split_ifs at hok with hval
    · injection hok with hok
      subst hok
      exact ⟨hval, calculate_streaks_ok now _ hval⟩

/-- C9 witness: constructing with "yearly" fails; a constructed daily
habit has a valid periodicity and a streak value. -/
theorem constructed_habit_valid_witness :
    (∃ e, mkHabit none "Yoga" "yearly" 0 [] = .error e) ∧
    ((⟨none, "Yoga", "daily", 0, []⟩ : Habit).periodicity ∈ VALID_PERIODICITIES ∧
      ∃ k, calculate_streaks 0 (⟨none, "Yoga", "daily", 0, []⟩ : Habit) = .ok k) :=
  ⟨(constructed_habit_valid none "Yoga" "yearly" 0 [] 0).1 (by decide),
   (constructed_habit_valid none "Yoga" "daily" 0 [] 0).2 _ rfl⟩

end HabitTracker
